import Mathlib

/-!
# Verification of the scomp report-computation engine

Shallow embedding of the scomp repository (github.com/ukane-philemon/scomp),
a GraphQL service that computes ranked, graded class reports from students'
raw per-subject scores.

The embedded code is:
* `graph/resolver.go` — `computeClassReport` (the report engine) and
  `gradeTotalScorePercentage` (the grading ladder);
* `internal/class/repository.go` — `ClassRepository.Create` validation;
* `internal/student/repository.go` — `StudentRepository.Create` validation;
* `internal/db/types.go` — `RequiredClassSubjects`;
* the mongodb data layer — `AddStudentRecordToClass` (per-score validation
  against the class's subject set) and `ClassInfoForReport` (the gate that
  refuses report generation for classes with fewer than 2 students).

Modelling conventions:
* Go `float64` values are modelled as exact rationals (`ℚ`); the engine's
  percentage formulas are pure real-arithmetic expressions and no claim in
  scope depends on binary rounding, so `ℚ` is adequate.  String formatting
  of percentages (`fmt.Sprintf`) is not modelled.
* Go maps are modelled as association lists.  A concrete list fixes one
  iteration order; a Go map guarantees distinct keys, which reappears as
  `Nodup` hypotheses on the key lists.  Where an output of the Go code
  depends on the (unspecified) map iteration order, that dependence is
  visible as dependence on the order of the association list.
* `sort.SliceStable` is a stable sort with respect to its comparator; it is
  embedded as `List.insertionSort`, which is stable for the total preorder
  used here, and therefore extensionally identical to any stable sort.
* Database effects (InsertOne / UpdateOne) are not modelled; a validation
  function returns a result saying whether the record reaches the store.
-/

namespace Scomp

/-- A class subject: name and maximum attainable score
(`class.Subject` / `model.Subject`). -/
structure Subject where
  name : String
  maxScore : Int
  deriving Repr, DecidableEq

/-- A student's raw score in one subject (`student.SubjectScore`). -/
structure SubjectScore where
  name : String
  score : Int
  deriving Repr, DecidableEq

/-- One per-subject entry of a student's output report
(`student.SubjectReport`: embedded `SubjectScore` plus grade and position).
The subject percentage is used only to compute the grade and is not stored,
exactly as in `computeClassReport`. -/
structure SubjectReport where
  name : String
  score : Int
  grade : String
  position : Nat
  deriving Repr, DecidableEq

/-- The class-level part of a student's report (`student.StudentClassReport`).
`totalScorePercentage` is a formatted string in Go; its numeric value is
modelled as an exact rational. -/
structure StudentClassReport where
  totalScore : Int
  totalScorePercentage : ℚ
  position : Nat
  grade : String
  deriving Repr, DecidableEq

/-- A student's full output report (`student.Report`, minus the
`GeneratedAt` timestamp, which no claim in scope mentions). -/
structure StudentReportOut where
  classPart : StudentClassReport
  subjects : List SubjectReport
  deriving Repr, DecidableEq

/-- The class-level output report (`class.ClassReport`, minus
`GeneratedAt`). -/
structure ClassReport where
  totalStudents : Nat
  highestStudentScore : Int
  highestStudentScoreAsPercentage : ℚ
  lowestStudentScore : Int
  lowestStudentScoreAsPercentage : ℚ
  deriving Repr, DecidableEq

/-- `resolver.go` lines 49-56: `totalMaxSubjectsScore`, the sum of all
subject max scores. -/
def totalMaxScore (classSubjects : List Subject) : Int :=
  (classSubjects.map (·.maxScore)).sum

/-- `resolver.go` lines 64-66: a student's total score is the sum of the
scores in their input list. -/
def studentTotal (scores : List SubjectScore) : Int :=
  (scores.map (·.score)).sum

/-- `resolver.go` lines 63-73: the per-subject grouping.  For subject name
`n`, the `(studentID, score)` pairs accumulated into
`subjectScoreMap[n].studentScores`, in student-iteration order and, within
one student, in that student's input order.  (In Go a score whose subject
name is not in the map would dereference a nil entry and panic; theorems
about the engine therefore carry the upstream-validated hypothesis that
every referenced name is a class subject.) -/
def subjectBucket (studentsInfo : List (String × List SubjectScore))
    (n : String) : List (String × Int) :=
  studentsInfo.flatMap (fun p =>
    (p.2.filter (fun sc => sc.name == n)).map (fun sc => (p.1, sc.score)))

/-- `sort.SliceStable(…, func(i, j) { return score_i > score_j })`:
the stable descending sort on the score component, embedded as insertion
sort for the total preorder `b.2 ≤ a.2` (insertion sort is stable, so it
coincides with Go's stable sort). -/
def sortByScoreDesc (l : List (String × Int)) : List (String × Int) :=
  List.insertionSort (fun a b => b.2 ≤ a.2) l

/-- `resolver.go` lines 152-168: `gradeTotalScorePercentage`, the descending
switch ladder.  (The Go function receives the percentage as a string and
parses it back with `strconv.ParseFloat`; the numeric ladder itself is
embedded, over the exact percentage value.) -/
def gradeTotalScorePercentage (p : ℚ) : String :=
  if p > 69 then "Excellent"
  else if p > 59 then "Good"
  else if p > 49 then "Fair"
  else if p > 44 then "Pass"
  else if p > 40 then "Pass"
  else "Fail"

/-- `resolver.go` lines 91-110: the subject reports appended to student
`sid`'s report, in subject-iteration order.  For each class subject the
grouped scores are stably sorted descending and position `index + 1` is
assigned; the grade comes from `score / maxScore * 100` through the same
grading function. -/
def subjectReportsFor (classSubjects : List Subject)
    (studentsInfo : List (String × List SubjectScore)) (sid : String) :
    List SubjectReport :=
  classSubjects.flatMap (fun subj =>
    ((sortByScoreDesc (subjectBucket studentsInfo subj.name)).enum.filter
        (fun e => e.2.1 == sid)).map (fun e =>
      { name := subj.name
        score := e.2.2
        grade := gradeTotalScorePercentage
          ((e.2.2 : ℚ) / (subj.maxScore : ℚ) * 100)
        position := e.1 + 1 }))

/-- `resolver.go` lines 63-87: the `studentReports` slice — each student
paired with their total score, in student-iteration order. -/
def studentTotals (studentsInfo : List (String × List SubjectScore)) :
    List (String × Int) :=
  studentsInfo.map (fun p => (p.1, studentTotal p.2))

/-- `resolver.go` lines 126-130: one step of the highest/lowest
accumulation inside the position loop.  `hl.1` is
`classReport.HighestStudentScore`, `hl.2` is `LowestStudentScore`;
the zero test on `hl.2` is the code's "uninitialized" sentinel. -/
def extremesStep (hl : Int × Int) (t : Int) : Int × Int :=
  if t > hl.1 then (t, hl.2)
  else if hl.2 = 0 ∨ t < hl.2 then (hl.1, t)
  else hl

/-- `resolver.go` lines 117-135: the fold of `extremesStep` over the
class-rank-sorted student list, starting from the zero-valued
`class.ClassReport` literal. -/
def classExtremes (sorted : List (String × Int)) : Int × Int :=
  sorted.foldl (fun hl p => extremesStep hl p.2) (0, 0)

/-- The engine's two outputs: the class report handed to
`ClassRepository.SaveClassReport` and the per-student report map handed to
`StudentRepository.SaveStudentReports`.  The map is represented as an
association list in class-rank order (the order positions are assigned in);
with distinct student IDs it carries exactly the Go map's bindings. -/
structure EngineOutput where
  classReport : ClassReport
  studentReports : List (String × StudentReportOut)
  deriving Repr, DecidableEq

/-- `resolver.go` lines 48-150: `computeClassReport`.  Computes every
student's total and percentage, groups and ranks each subject, ranks the
class by total score (stable descending sort, distinct consecutive
positions `index + 1`), grades both levels with
`gradeTotalScorePercentage`, and accumulates the class extremes. -/
def computeClassReport (classSubjects : List Subject)
    (studentsInfo : List (String × List SubjectScore)) : EngineOutput :=
  let totalMax := totalMaxScore classSubjects
  let sorted := sortByScoreDesc (studentTotals studentsInfo)
  let hl := classExtremes sorted
  { classReport :=
      { totalStudents := sorted.length
        highestStudentScore := hl.1
        highestStudentScoreAsPercentage := (hl.1 : ℚ) / (totalMax : ℚ) * 100
        lowestStudentScore := hl.2
        lowestStudentScoreAsPercentage := (hl.2 : ℚ) / (totalMax : ℚ) * 100 }
    studentReports := sorted.enum.map (fun e =>
      (e.2.1,
        { classPart :=
            { totalScore := e.2.2
              totalScorePercentage := (e.2.2 : ℚ) / (totalMax : ℚ) * 100
              position := e.1 + 1
              grade := gradeTotalScorePercentage
                ((e.2.2 : ℚ) / (totalMax : ℚ) * 100) }
          subjects := subjectReportsFor classSubjects studentsInfo e.2.1 })) }

/-- The class positions appearing in the output, in output order. -/
def classPositions (out : EngineOutput) : List Nat :=
  out.studentReports.map fun p => p.2.classPart.position

/-- The subject positions for subject `n` across all students' output
reports. -/
def subjectPositions (out : EngineOutput) (n : String) : List Nat :=
  out.studentReports.flatMap fun p =>
    (p.2.subjects.filter fun sr => sr.name == n).map fun sr => sr.position

/-- The number of students in the snapshot that reported a score for
subject `n`. -/
def studentsReporting (si : List (String × List SubjectScore))
    (n : String) : Nat :=
  (si.filter fun p => p.2.any fun sc => sc.name == n).length

/-- The subject reports student `sid` receives from one subject's ranking
loop. -/
def subjectLine (si : List (String × List SubjectScore)) (subj : Subject)
    (sid : String) : List SubjectReport :=
  ((sortByScoreDesc (subjectBucket si subj.name)).enum.filter
      fun e => e.2.1 == sid).map fun e =>
    { name := subj.name
      score := e.2.2
      grade := gradeTotalScorePercentage
        ((e.2.2 : ℚ) / (subj.maxScore : ℚ) * 100)
      position := e.1 + 1 }

/-- The grading bands exactly as the specification words them: a
descending ladder with ranges `p > 69`, `59 < p ≤ 69`, `49 < p ≤ 59`,
`40 < p ≤ 49` and `p ≤ 40`.  Stated separately from
`gradeTotalScorePercentage` (which is translated from the Go switch) so
that the two ladders can be compared. -/
def claimGradingBand (p : ℚ) : String :=
  if p > 69 then "Excellent"
  else if 59 < p ∧ p ≤ 69 then "Good"
  else if 49 < p ∧ p ≤ 59 then "Fair"
  else if 40 < p ∧ p ≤ 49 then "Pass"
  else "Fail"

/-! ### Concrete snapshots used by witness theorems -/

/-- A two-subject catalogue with distinct names and positive max scores. -/
def witSubjects : List Subject := [⟨"math", 100⟩, ⟨"art", 50⟩]

/-- A two-student snapshot over `witSubjects` with distinct totals
(alice: 40+50 = 90, bob: 90+30 = 120; totalMaxScore = 150). -/
def witStudents : List (String × List SubjectScore) :=
  [("alice", [⟨"math", 40⟩, ⟨"art", 50⟩]),
   ("bob", [⟨"math", 90⟩, ⟨"art", 30⟩])]

/-- The same snapshot as `witStudents` in the other iteration order. -/
def witStudentsRev : List (String × List SubjectScore) :=
  [("bob", [⟨"math", 90⟩, ⟨"art", 30⟩]),
   ("alice", [⟨"math", 40⟩, ⟨"art", 50⟩])]

/-- A one-subject catalogue for the tie scenarios. -/
def tieSubjects : List Subject := [⟨"math", 100⟩]

/-- Two students with identical scores, in one iteration order… -/
def tieSnapshotAB : List (String × List SubjectScore) :=
  [("alice", [⟨"math", 50⟩]), ("bob", [⟨"math", 50⟩])]

/-- …and the same snapshot in the other iteration order. -/
def tieSnapshotBA : List (String × List SubjectScore) :=
  [("bob", [⟨"math", 50⟩]), ("alice", [⟨"math", 50⟩])]

/-! ## Input-side validation layer -/

/-- `internal/db/types.go`: `RequiredClassSubjects`, the hard-coded number
of subjects a class (and every student record) must have. -/
def RequiredClassSubjects : Nat := 10

/-- Result of a repository call, abstracting the database: either the
request is rejected with a descriptive `db.ErrorInvalidRequest` message
before anything is written, or execution reaches the store operation. -/
inductive RepoResult (α : Type) where
  | invalidRequest (msg : String)
  | stored (value : α)
  deriving Repr, DecidableEq

/-- `ClassRepository.Create` subject loop (lines 101-109): the first
validation error among the class's subjects, if any. -/
def checkClassSubjects : List Subject → Option String
  | [] => none
  | s :: rest =>
    if s.name = "" then some "missing subject name"
    else if s.maxScore < 1 then some "invalid max score"
    else checkClassSubjects rest

/-- `internal/class/repository.go` lines 92-128: `ClassRepository.Create`'s
validation prefix.  On success the class record (name and subjects) reaches
`InsertOne`. -/
def classCreate (className : String) (subjects : List Subject) :
    RepoResult (String × List Subject) :=
  if className = "" then .invalidRequest "missing class name"
  else if subjects.length ≠ RequiredClassSubjects then
    .invalidRequest "10 class subjects are required to create a class"
  else
    match checkClassSubjects subjects with
    | some msg => .invalidRequest msg
    | none => .stored (className, subjects)

/-- `StudentRepository.Create` subject loop (lines 107-119): the first
validation error among the student's subject scores, if any. -/
def checkStudentScores : List SubjectScore → Option String
  | [] => none
  | sc :: rest =>
    if sc.name = "" then some "student subject is missing subject name"
    else if sc.score < 0 then some "subject has an invalid score"
    else checkStudentScores rest

/-- `internal/student/repository.go` lines 90-128:
`StudentRepository.Create`'s validation prefix.  On success the student
record reaches `InsertOne`. -/
def studentCreate (classID studentName : String)
    (subjectScores : List SubjectScore) :
    RepoResult (String × String × List SubjectScore) :=
  if classID = "" ∨ studentName = "" ∨ subjectScores.length = 0 then
    .invalidRequest "missing required argument(s)"
  else if subjectScores.length ≠ RequiredClassSubjects then
    .invalidRequest "10 class subjects are required to save a student's record"
  else
    match checkStudentScores subjectScores with
    | some msg => .invalidRequest msg
    | none => .stored (classID, studentName, subjectScores)

/-- Go map lookup `dbClass.Subjects[subject.Name]` over the class's subject
set, represented as a list keyed by subject name. -/
def lookupSubject (subjects : List Subject) (n : String) : Option Subject :=
  subjects.find? (fun s => s.name == n)

/-- `AddStudentRecordToClass` score loop (mongodb layer, lines 110-129):
the first validation error among the student's reported scores, checked
against the class's subject set — empty name, negative score, unknown
subject name, or score above the subject's max score. -/
def checkRecordScores (classSubjects : List Subject) :
    List SubjectScore → Option String
  | [] => none
  | sc :: rest =>
    if sc.name = "" then some "student subject is missing subject name"
    else if sc.score < 0 then some "subject has an invalid score"
    else
      match lookupSubject classSubjects sc.name with
      | none => some "subject name does not exist"
      | some subj =>
        if sc.score > subj.maxScore then
          some "student score exceeds the maximum score for this subject"
        else checkRecordScores classSubjects rest

/-- `AddStudentRecordToClass` (mongodb layer, lines 69-167): validation of
a student record against the fetched class before it is written.  The
class record is given as: its subject set, the names of already-registered
students, and whether a report already exists.  On success the record
reaches the transactional insert. -/
def addStudentRecordToClass (classID : String)
    (classSubjects : List Subject) (existingStudents : List String)
    (reportExists : Bool) (studentName : String)
    (subjectScores : List SubjectScore) :
    RepoResult (String × List SubjectScore) :=
  if classID = "" ∨ studentName = "" then
    .invalidRequest "missing required argument(s)"
  else if subjectScores.length ≠ RequiredClassSubjects then
    .invalidRequest "10 class subjects are required to save a student's report"
  else if reportExists then
    .invalidRequest "cannot add student record to class with a finalized report"
  else if studentName ∈ existingStudents then
    .invalidRequest "student name has already been added to this class"
  else
    match checkRecordScores classSubjects subjectScores with
    | some msg => .invalidRequest msg
    | none => .stored (studentName, subjectScores)

/-- `ClassInfoForReport`'s minimum-student constant (mongodb layer,
line 18): `minStudentsForReport`. -/
def minStudentsForReport : Nat := 2

/-- Result of the report-generation gate: either a descriptive
invalid-request refusal, or the subjects-and-scores snapshot handed to the
report engine. -/
inductive ReportGateResult where
  | invalidRequest (msg : String)
  | ok (subjects : List Subject)
      (records : List (String × List SubjectScore))
  deriving Repr, DecidableEq

/-- `ClassInfoForReport` (mongodb layer, lines 287-317): the gate consulted
before the report engine runs, over the fetched class record (its existing
report, subject set and student records).  A class with a report already
generated, or with fewer than `minStudentsForReport` students, is refused
with a `db.ErrorInvalidRequest` error and no snapshot is produced. -/
def classInfoForReport (existingReport : Option ClassReport)
    (subjects : List Subject)
    (records : List (String × List SubjectScore)) : ReportGateResult :=
  match existingReport with
  | some _ =>
    .invalidRequest "a report has already been generated for this class"
  | none =>
    if records.length < minStudentsForReport then
      .invalidRequest
        "a minimum of 2 students is required to generate a report for this class"
    else .ok subjects records

/-! ## General list lemmas

Reusable facts about `filter`, `flatMap`, `enumFrom` and stable folds that
the engine theorems below share. -/

/-- Rewriting a `flatMap` pointwise over the members of the list. -/
theorem flatMap_congr_mem {α β : Type _} {l : List α} {f g : α → List β}
    (h : ∀ a ∈ l, f a = g a) : l.flatMap f = l.flatMap g := by
  simp only [List.flatMap]
  rw [List.map_congr_left h]

/-- `filter` distributes over `flatMap`. -/
theorem filter_flatMap {α β : Type _} (l : List α) (f : α → List β)
    (p : β → Bool) :
    (l.flatMap f).filter p = l.flatMap fun a => (f a).filter p := by
  induction l with
  | nil => rfl
  | cons a l ih => rw [List.flatMap_cons, List.flatMap_cons, List.filter_append, ih]

/-- Partitioning a list by a key: concatenating, over a duplicate-free list
of keys covering every element, the sublists of elements with each key
yields a permutation of the list. -/
theorem flatMap_filter_key_perm {α κ : Type _} [BEq κ] [LawfulBEq κ]
    (key : α → κ) :
    ∀ (ks : List κ) (l : List α), ks.Nodup → (∀ a ∈ l, key a ∈ ks) →
      (ks.flatMap fun k => l.filter fun a => key a == k).Perm l
  | [], l, _, h => by
    have hl : l = [] := List.eq_nil_iff_forall_not_mem.2 fun a ha => by
      simpa using h a ha
    simp [hl]
  | k :: ks, l, hnd, h => by
    have hk : k ∉ ks := (List.nodup_cons.mp hnd).1
    rw [List.flatMap_cons]
    have hstep : (ks.flatMap fun k' => l.filter fun a => key a == k')
        = ks.flatMap fun k' =>
            (l.filter fun a => !(key a == k)).filter fun a => key a == k' := by
      refine flatMap_congr_mem fun k' hk' => ?_
      rw [List.filter_filter]
      refine List.filter_congr fun a _ => ?_
      by_cases hak : key a = k'
      · have hne : key a ≠ k := by
          rintro rfl
          exact hk (hak ▸ hk')
        have hkk : ¬k' = k := fun hkk => hk (hkk ▸ hk')
        simp [hak, hne, hkk]
      · simp [hak]
    have hmem : ∀ a ∈ l.filter fun a => !(key a == k), key a ∈ ks := by
      intro a ha
      obtain ⟨hal, hbool⟩ := List.mem_filter.mp ha
      have hne : key a ≠ k := by simpa using hbool
      rcases List.mem_cons.mp (h a hal) with h' | h'
      · exact absurd h' hne
      · exact h'
    have hIH := flatMap_filter_key_perm key ks
      (l.filter fun a => !(key a == k)) (List.nodup_cons.mp hnd).2 hmem
    rw [hstep]
    exact (hIH.append_left _).trans (List.filter_append_perm _ l)

/-- Over a list with duplicate-free keys, a keyed `flatMap` that is empty
away from `a₀`'s key collapses to its value at `a₀`. -/
theorem flatMap_if_key_eq {α β κ : Type _} [DecidableEq κ] (key : α → κ)
    (F : α → List β) :
    ∀ (l : List α) (a₀ : α), (l.map key).Nodup → a₀ ∈ l →
      (l.flatMap fun a => if key a = key a₀ then F a else []) = F a₀
  | [], _, _, h => absurd h (List.not_mem_nil _)
  | a :: l, a₀, hnd, h => by
    have hnd' : key a ∉ l.map key ∧ (l.map key).Nodup := by
      rw [List.map_cons] at hnd
      exact ⟨(List.nodup_cons.mp hnd).1, (List.nodup_cons.mp hnd).2⟩
    rw [List.flatMap_cons]
    rcases List.mem_cons.mp h with rfl | hmem
    · rw [if_pos rfl]
      have hrest : (l.flatMap fun a' => if key a' = key a₀ then F a' else [])
          = [] := by
        refine List.flatMap_eq_nil_iff.mpr fun x hx => ?_
        have : key x ≠ key a₀ := by
          intro hkx
          exact hnd'.1 (hkx ▸ List.mem_map_of_mem key hx)
        rw [if_neg this]
      rw [hrest, List.append_nil]
    · have hne : key a ≠ key a₀ := by
        intro hka
        exact hnd'.1 (hka ▸ List.mem_map_of_mem key hmem)
      rw [if_neg hne, List.nil_append]
      exact flatMap_if_key_eq key F l a₀ hnd'.2 hmem

/-- Filtering and projecting an enumerated list by a predicate on the
elements alone forgets the indices. -/
theorem enumFrom_filter_map_snd {α β : Type _} (p : α → Bool) (f : α → β) :
    ∀ (n : Nat) (l : List α),
      (((l.enumFrom n).filter fun e => p e.2).map fun e => f e.2)
        = (l.filter p).map f
  | _, [] => rfl
  | n, a :: l => by
    by_cases hp : p a <;>
      simp [List.enumFrom, List.filter_cons, hp,
        enumFrom_filter_map_snd p f (n + 1) l]

/-- The one-based indices of an enumeration starting at `n` are
`n+1, …, n+length`. -/
theorem enumFrom_map_index_succ {α : Type _} (n : Nat) (l : List α) :
    ((l.enumFrom n).map fun e => e.1 + 1) = List.range' (n + 1) l.length := by
  have h1 : ((l.enumFrom n).map fun e => e.1 + 1)
      = ((l.enumFrom n).map Prod.fst).map fun i => i + 1 := by
    rw [List.map_map]
    rfl
  rw [h1, List.enumFrom_map_fst]
  have h2 : ((List.range' n l.length).map fun i => i + 1)
      = (List.range' n l.length).map fun i => 1 + i :=
    List.map_congr_left fun i _ => Nat.add_comm i 1
  rw [h2, List.map_add_range']
  rw [Nat.add_comm 1 n]

/-- With duplicate-free keys, a key determines its value in an association
list. -/
theorem value_eq_of_nodup_keys {κ β : Type _} :
    ∀ {l : List (κ × β)} {k : κ} {b₁ b₂ : β},
      (l.map Prod.fst).Nodup → (k, b₁) ∈ l → (k, b₂) ∈ l → b₁ = b₂
  | [], _, _, _, _, h, _ => absurd h (List.not_mem_nil _)
  | q :: l, k, b₁, b₂, hnd, h₁, h₂ => by
    have hhd : q.1 ∉ l.map Prod.fst := by
      rw [List.map_cons] at hnd
      exact (List.nodup_cons.mp hnd).1
    have htl : (l.map Prod.fst).Nodup := by
      rw [List.map_cons] at hnd
      exact (List.nodup_cons.mp hnd).2
    rcases List.mem_cons.mp h₁ with rfl | hm₁ <;>
      rcases List.mem_cons.mp h₂ with he | hm₂
    · exact congrArg Prod.snd he.symm
    · exact absurd (List.mem_map_of_mem Prod.fst hm₂) hhd
    · have hq1 : q.1 = k := by rw [← he]
      exact absurd (List.mem_map_of_mem Prod.fst hm₁) (hq1 ▸ hhd)
    · exact value_eq_of_nodup_keys htl hm₁ hm₂

/-- `getLastD` of a nonempty list is a member. -/
theorem getLastD_cons_mem {α : Type _} :
    ∀ (l : List α) (a d : α), (a :: l).getLastD d ∈ a :: l
  | [], a, d => by simp [List.getLastD]
  | b :: l, a, d => by
    rw [List.getLastD_cons]
    exact List.mem_cons_of_mem a (getLastD_cons_mem l b a)

/-- In a `≥`-sorted nonempty list, `getLastD` is a lower bound. -/
theorem getLastD_le_of_pairwise_ge :
    ∀ (l : List Int) (a : Int), (a :: l).Pairwise (· ≥ ·) →
      (a :: l).getLastD 0 ≤ a ∧ ∀ t ∈ l, (a :: l).getLastD 0 ≤ t
  | [], a, _ => by simp [List.getLastD]
  | b :: l, a, hp => by
    have htl := getLastD_le_of_pairwise_ge l b (List.Pairwise.of_cons hp)
    have hba : b ≤ a := List.rel_of_pairwise_cons hp (List.mem_cons_self b l)
    rw [List.getLastD_cons] at htl
    rw [List.getLastD_cons, List.getLastD_cons]
    refine ⟨le_trans htl.1 hba, fun t ht => ?_⟩
    rcases List.mem_cons.mp ht with rfl | hm
    · exact htl.1
    · exact htl.2 t hm

/-- Sum of a `flatMap` of integer lists. -/
theorem sum_flatMap_int {α : Type _} (l : List α) (f : α → List Int) :
    (l.flatMap f).sum = (l.map fun a => (f a).sum).sum := by
  rw [List.flatMap, List.sum_flatten, List.map_map]
  rfl

/-! ## Engine bridge lemmas -/

/-- Projecting the elements out of an enumeration. -/
theorem enumFrom_map_snd_comp {α β : Type _} (n : Nat) (l : List α)
    (f : α → β) : ((l.enumFrom n).map fun e => f e.2) = l.map f := by
  have h : ((l.enumFrom n).map fun e => f e.2)
      = ((l.enumFrom n).map Prod.snd).map f := by
    rw [List.map_map]
    rfl
  rw [h, List.enumFrom_map_snd]

/-- Unfolding of the engine's per-student output list. -/
theorem computeClassReport_studentReports (cs : List Subject)
    (si : List (String × List SubjectScore)) :
    (computeClassReport cs si).studentReports
      = (sortByScoreDesc (studentTotals si)).enum.map (fun e =>
          (e.2.1,
            { classPart :=
                { totalScore := e.2.2
                  totalScorePercentage :=
                    (e.2.2 : ℚ) / (totalMaxScore cs : ℚ) * 100
                  position := e.1 + 1
                  grade := gradeTotalScorePercentage
                    ((e.2.2 : ℚ) / (totalMaxScore cs : ℚ) * 100) }
              subjects := subjectReportsFor cs si e.2.1 })) := rfl

/-- The output student keys are the class-rank-sorted input keys. -/
theorem studentReports_keys_eq (cs : List Subject)
    (si : List (String × List SubjectScore)) :
    (computeClassReport cs si).studentReports.map Prod.fst
      = (sortByScoreDesc (studentTotals si)).map Prod.fst := by
  rw [computeClassReport_studentReports, List.map_map]
  exact enumFrom_map_snd_comp 0 _ Prod.fst

/-- The class positions, read off in output order, are literally
`1, 2, …, N`. -/
theorem studentReports_positions_eq (cs : List Subject)
    (si : List (String × List SubjectScore)) :
    ((computeClassReport cs si).studentReports.map
        fun q => q.2.classPart.position)
      = List.range' 1 si.length := by
  rw [computeClassReport_studentReports, List.map_map]
  have h := enumFrom_map_index_succ 0 (sortByScoreDesc (studentTotals si))
  have hlen : (sortByScoreDesc (studentTotals si)).length = si.length := by
    simp only [sortByScoreDesc, List.length_insertionSort, studentTotals,
      List.length_map]
  rw [hlen] at h
  exact h

/-- Every output entry comes from an input student: its total score is the
sum of that student's own scores, its percentage and grade come from the
engine's formulas, and its subject reports are `subjectReportsFor`. -/
theorem studentReports_entry_spec (cs : List Subject)
    (si : List (String × List SubjectScore)) {p : String × StudentReportOut}
    (hp : p ∈ (computeClassReport cs si).studentReports) :
    ∃ scs, (p.1, scs) ∈ si
      ∧ p.2.classPart.totalScore = studentTotal scs
      ∧ p.2.classPart.totalScorePercentage
          = (studentTotal scs : ℚ) / (totalMaxScore cs : ℚ) * 100
      ∧ p.2.classPart.grade
          = gradeTotalScorePercentage p.2.classPart.totalScorePercentage
      ∧ p.2.subjects = subjectReportsFor cs si p.1 := by
  rw [computeClassReport_studentReports] at hp
  obtain ⟨e, he, rfl⟩ := List.mem_map.mp hp
  have h2 : e.2 ∈ sortByScoreDesc (studentTotals si) := by
    have hmem : e.2 ∈ List.map Prod.snd
        ((sortByScoreDesc (studentTotals si)).enumFrom 0) :=
      List.mem_map_of_mem Prod.snd he
    rwa [List.enumFrom_map_snd] at hmem
  have h3 : e.2 ∈ studentTotals si := by
    have hperm : List.Perm (sortByScoreDesc (studentTotals si))
        (studentTotals si) := List.perm_insertionSort _ _
    exact hperm.mem_iff.mp h2
  obtain ⟨q, hq, he2⟩ := List.mem_map.mp h3
  have h21 : e.2.1 = q.1 := by rw [← he2]
  have h22 : e.2.2 = studentTotal q.2 := by rw [← he2]
  refine ⟨q.2, ?_, ?_, ?_, rfl, rfl⟩
  · simpa [h21] using hq
  · exact h22
  · show (e.2.2 : ℚ) / _ * 100 = _
    rw [h22]

/-- The class-rank-sorted list is sorted descending by total score. -/
theorem sortByScoreDesc_pairwise (l : List (String × Int)) :
    (sortByScoreDesc l).Pairwise fun a b => b.2 ≤ a.2 := by
  haveI : IsTotal (String × Int) fun a b => b.2 ≤ a.2 :=
    ⟨fun a b => le_total b.2 a.2⟩
  haveI : IsTrans (String × Int) fun a b => b.2 ≤ a.2 :=
    ⟨fun a b c hab hbc => le_trans hbc hab⟩
  exact List.sorted_insertionSort _ l

/-- Tail analysis of the highest/lowest fold (`resolver.go` lines
126-130): once the running highest is an upper bound and the running
lowest is either the zero sentinel or a lower bound of what remains, the
fold keeps the highest and tracks the last (smallest) element of the
descending list. -/
theorem foldl_extremesStep (h : Int) :
    ∀ (zs : List Int) (m : Int), zs.Pairwise (· ≥ ·) →
      (∀ t ∈ zs, t ≤ h) → (m = 0 ∨ ∀ t ∈ zs, t ≤ m) →
      zs.foldl extremesStep (h, m) = (h, zs.getLastD m)
  | [], m, _, _, _ => rfl
  | t :: zs, m, hp, hh, hm => by
    have hth : ¬t > h := not_lt.mpr (hh t (List.mem_cons_self t zs))
    have hstep : extremesStep (h, m) t = (h, t) := by
      rcases hm with rfl | hbnd
      · simp [extremesStep, hth]
      · have htm : t ≤ m := hbnd t (List.mem_cons_self t zs)
        by_cases hm0 : m = 0
        · simp [extremesStep, hth, hm0]
        · by_cases hlt : t < m
          · simp [extremesStep, hth, hlt]
          · have heq : t = m := le_antisymm htm (not_lt.mp hlt)
            subst heq
            simp [extremesStep, hth, hm0]
    rw [List.foldl_cons, hstep,
      foldl_extremesStep h zs t (List.Pairwise.of_cons hp)
        (fun t' ht' => hh t' (List.mem_cons_of_mem t ht'))
        (Or.inr fun t' ht' => ge_iff_le.mp (List.rel_of_pairwise_cons hp ht')),
      List.getLastD_cons]

/-- On a descending, nonnegative-headed list of at least two students, the
fold of `resolver.go` lines 126-130 computes the first (largest) and last
(smallest) totals. -/
theorem classExtremes_cons_cons (x y : String × Int)
    (l : List (String × Int))
    (hsorted : (x :: y :: l).Pairwise fun a b => b.2 ≤ a.2)
    (h0 : 0 ≤ x.2) :
    classExtremes (x :: y :: l) = (x.2, (l.map Prod.snd).getLastD y.2) := by
  have hfold : classExtremes (x :: y :: l)
      = ((x :: y :: l).map Prod.snd).foldl extremesStep (0, 0) := by
    rw [classExtremes, List.foldl_map]
  have hpwAll : ((x :: y :: l).map Prod.snd).Pairwise (· ≥ ·) :=
    List.pairwise_map.mpr (hsorted.imp fun h => ge_iff_le.mpr h)
  have hzs : (x :: y :: l).map Prod.snd = x.2 :: y.2 :: l.map Prod.snd := rfl
  rw [hzs] at hpwAll
  have hstep1 : extremesStep (0, 0) x.2 = (x.2, 0) := by
    rcases lt_or_eq_of_le h0 with hpos | hz
    · simp [extremesStep, hpos]
    · simp [extremesStep, ← hz]
  rw [hfold, hzs, List.foldl_cons, hstep1,
    foldl_extremesStep x.2 (y.2 :: l.map Prod.snd) 0
      (List.Pairwise.of_cons hpwAll)
      (fun t ht => ge_iff_le.mp (List.rel_of_pairwise_cons hpwAll ht))
      (Or.inl rfl),
    List.getLastD_cons]

/-- Sums of nonnegative integer lists are nonnegative. -/
theorem sum_nonneg_int : ∀ (l : List Int), (∀ t ∈ l, 0 ≤ t) → 0 ≤ l.sum
  | [], _ => le_refl 0
  | t :: l, h => by
    rw [List.sum_cons]
    exact add_nonneg (h t (List.mem_cons_self t l))
      (sum_nonneg_int l fun t' ht' => h t' (List.mem_cons_of_mem t ht'))

/-! ## Subject-level bridge lemmas -/

theorem subjectReportsFor_eq (cs : List Subject)
    (si : List (String × List SubjectScore)) (sid : String) :
    subjectReportsFor cs si sid
      = cs.flatMap fun subj => subjectLine si subj sid := rfl

/-- Filtering one subject's line by a subject name keeps everything or
nothing. -/
theorem subjectLine_filter_eq (si : List (String × List SubjectScore))
    (subj subj₀ : Subject) (sid : String) :
    ((subjectLine si subj sid).filter fun sr => sr.name == subj₀.name)
      = if subj.name = subj₀.name then subjectLine si subj sid else [] := by
  by_cases h : subj.name = subj₀.name
  · rw [if_pos h]
    refine List.filter_eq_self.mpr fun sr hsr => ?_
    obtain ⟨e, _, rfl⟩ := List.mem_map.mp hsr
    simpa using h
  · rw [if_neg h]
    refine List.filter_eq_nil_iff.mpr fun sr hsr => ?_
    obtain ⟨e, _, rfl⟩ := List.mem_map.mp hsr
    simpa using h

/-- With duplicate-free subject names, filtering a student's subject
reports down to one subject's name recovers exactly that subject's line. -/
theorem subjectReportsFor_filter (cs : List Subject)
    (si : List (String × List SubjectScore)) (sid : String)
    {subj₀ : Subject} (hnames : (cs.map Subject.name).Nodup)
    (h₀ : subj₀ ∈ cs) :
    ((subjectReportsFor cs si sid).filter fun sr => sr.name == subj₀.name)
      = subjectLine si subj₀ sid := by
  rw [subjectReportsFor_eq, filter_flatMap]
  calc (cs.flatMap fun subj =>
          (subjectLine si subj sid).filter fun sr => sr.name == subj₀.name)
      = cs.flatMap fun subj =>
          if subj.name = subj₀.name then subjectLine si subj sid else [] :=
        flatMap_congr_mem fun subj _ => subjectLine_filter_eq si subj subj₀ sid
    _ = subjectLine si subj₀ sid :=
        flatMap_if_key_eq Subject.name (fun subj => subjectLine si subj sid)
          cs subj₀ hnames h₀

/-- The indices of an enumeration, one-based. -/
theorem enum_map_index_succ {α : Type _} (l : List α) :
    (l.enum.map fun e => e.1 + 1) = List.range' 1 l.length :=
  enumFrom_map_index_succ 0 l

/-- The output keys are duplicate-free and a permutation of the input
keys. -/
theorem studentReports_keys_perm (cs : List Subject)
    (si : List (String × List SubjectScore)) :
    List.Perm ((computeClassReport cs si).studentReports.map Prod.fst)
      (si.map Prod.fst) := by
  rw [studentReports_keys_eq]
  have hperm : List.Perm ((sortByScoreDesc (studentTotals si)).map Prod.fst)
      ((studentTotals si).map Prod.fst) :=
    (List.perm_insertionSort _ _).map _
  have heq : (studentTotals si).map Prod.fst = si.map Prod.fst := by
    unfold studentTotals
    rw [List.map_map]
    rfl
  exact heq ▸ hperm

/-- Every entry of a subject's bucket is keyed by an input student. -/
theorem subjectBucket_fst_mem (si : List (String × List SubjectScore))
    (n : String) {x : String × Int} (hx : x ∈ subjectBucket si n) :
    x.1 ∈ si.map Prod.fst := by
  obtain ⟨q, hq, hin⟩ := List.mem_flatMap.mp hx
  obtain ⟨sc, _, hsc⟩ := List.mem_map.mp hin
  have h1 : x.1 = q.1 := by rw [← hsc]
  exact h1 ▸ List.mem_map_of_mem Prod.fst hq

/-- The subject positions for a class subject are a permutation of
`1..M`, `M` the size of that subject's bucket. -/
theorem subjectPositions_perm (cs : List Subject)
    (si : List (String × List SubjectScore))
    (hkeys : (si.map Prod.fst).Nodup)
    (hnames : (cs.map Subject.name).Nodup) {subj₀ : Subject}
    (h₀ : subj₀ ∈ cs) :
    List.Perm (subjectPositions (computeClassReport cs si) subj₀.name)
      (List.range' 1 (subjectBucket si subj₀.name).length) := by
  have hstep1 : subjectPositions (computeClassReport cs si) subj₀.name
      = (computeClassReport cs si).studentReports.flatMap fun p =>
          (subjectLine si subj₀ p.1).map fun sr => sr.position := by
    unfold subjectPositions
    refine flatMap_congr_mem fun p hp => ?_
    obtain ⟨scs, _, _, _, _, hsub⟩ := studentReports_entry_spec cs si hp
    rw [hsub, subjectReportsFor_filter cs si p.1 hnames h₀]
  have hstep2 : ∀ sid : String,
      ((subjectLine si subj₀ sid).map fun sr => sr.position)
        = ((sortByScoreDesc (subjectBucket si subj₀.name)).enum.filter
            fun e => e.2.1 == sid).map fun e => e.1 + 1 := by
    intro sid
    unfold subjectLine
    rw [List.map_map]
    rfl
  have hstep3 : ((computeClassReport cs si).studentReports.flatMap fun p =>
      (subjectLine si subj₀ p.1).map fun sr => sr.position)
      = ((computeClassReport cs si).studentReports.map Prod.fst).flatMap
          fun k => ((sortByScoreDesc (subjectBucket si subj₀.name)).enum.filter
            fun e => e.2.1 == k).map fun e => e.1 + 1 := by
    rw [List.flatMap_map]
    exact flatMap_congr_mem fun p _ => hstep2 p.1
  have hstep4 : (((computeClassReport cs si).studentReports.map Prod.fst).flatMap
      fun k => ((sortByScoreDesc (subjectBucket si subj₀.name)).enum.filter
        fun e => e.2.1 == k).map fun e => e.1 + 1)
      = (((computeClassReport cs si).studentReports.map Prod.fst).flatMap
          fun k => (sortByScoreDesc (subjectBucket si subj₀.name)).enum.filter
            fun e => e.2.1 == k).map fun e => e.1 + 1 :=
    (List.map_flatMap _ _ _).symm
  have hkeysOut : ((computeClassReport cs si).studentReports.map Prod.fst).Nodup :=
    (studentReports_keys_perm cs si).symm.nodup hkeys
  have hcover : ∀ e ∈ (sortByScoreDesc (subjectBucket si subj₀.name)).enum,
      e.2.1 ∈ (computeClassReport cs si).studentReports.map Prod.fst := by
    intro e he
    have h1 : e.2 ∈ sortByScoreDesc (subjectBucket si subj₀.name) := by
      have hmem : e.2 ∈ List.map Prod.snd
          ((sortByScoreDesc (subjectBucket si subj₀.name)).enumFrom 0) :=
        List.mem_map_of_mem Prod.snd he
      rwa [List.enumFrom_map_snd] at hmem
    have h2 : e.2 ∈ subjectBucket si subj₀.name :=
      (List.perm_insertionSort _ _).mem_iff.mp h1
    exact (studentReports_keys_perm cs si).mem_iff.mpr
      (subjectBucket_fst_mem si subj₀.name h2)
  have hpart := flatMap_filter_key_perm (fun e : ℕ × String × ℤ => e.2.1)
    ((computeClassReport cs si).studentReports.map Prod.fst)
    (sortByScoreDesc (subjectBucket si subj₀.name)).enum hkeysOut hcover
  have hfinal := hpart.map fun e : ℕ × String × ℤ => e.1 + 1
  rw [enum_map_index_succ] at hfinal
  rw [hstep1, hstep3, hstep4]
  have hlen : (sortByScoreDesc (subjectBucket si subj₀.name)).length
      = (subjectBucket si subj₀.name).length := by
    simp only [sortByScoreDesc, List.length_insertionSort]
  exact hlen ▸ hfinal

/-- With at most one entry per subject per student, the length of the
filtered score list is 1 or 0 according to whether the subject was
reported. -/
theorem filter_length_of_nodup_names (n : String) :
    ∀ scs : List SubjectScore, (scs.map SubjectScore.name).Nodup →
      (scs.filter fun sc => sc.name == n).length
        = if scs.any fun sc => sc.name == n then 1 else 0
  | [], _ => rfl
  | sc :: scs, hnd => by
    have hhd : sc.name ∉ scs.map SubjectScore.name := by
      rw [List.map_cons] at hnd
      exact (List.nodup_cons.mp hnd).1
    have htl : (scs.map SubjectScore.name).Nodup := by
      rw [List.map_cons] at hnd
      exact (List.nodup_cons.mp hnd).2
    by_cases h : sc.name = n
    · have hrest : (scs.filter fun sc' => sc'.name == n) = [] := by
        refine List.filter_eq_nil_iff.mpr fun sc' hsc' hb => ?_
        have h1 : sc'.name = n := by simpa using hb
        have h2 : sc.name = sc'.name := h.trans h1.symm
        exact hhd (h2 ▸ List.mem_map_of_mem SubjectScore.name hsc')
      simp [List.filter_cons, List.any_cons, h, hrest]
    · simp [List.filter_cons, List.any_cons, h,
        filter_length_of_nodup_names n scs htl]

/-- With at most one entry per subject per student, a subject's bucket has
one entry per reporting student. -/
theorem subjectBucket_length_eq (si : List (String × List SubjectScore))
    (n : String)
    (honce : ∀ p ∈ si, (p.2.map SubjectScore.name).Nodup) :
    (subjectBucket si n).length = studentsReporting si n := by
  induction si with
  | nil => rfl
  | cons q si ih =>
    have hq : (q.2.map SubjectScore.name).Nodup :=
      honce q (List.mem_cons_self q si)
    have ih' := ih fun p hp => honce p (List.mem_cons_of_mem q hp)
    simp only [subjectBucket, studentsReporting, List.flatMap_cons,
      List.length_append, List.length_map, List.filter_cons] at ih' ⊢
    rw [filter_length_of_nodup_names n q.2 hq, ih']
    by_cases h : q.2.any fun sc => sc.name == n
    · simp [h, Nat.add_comm]
    · simp [h]

/-! ## Score-sum bridge lemmas -/

/-- The scores on one subject line are the student's bucket entries for
that subject, in rank order. -/
theorem subjectLine_scores (si : List (String × List SubjectScore))
    (subj : Subject) (sid : String) :
    ((subjectLine si subj sid).map fun sr => sr.score)
      = ((sortByScoreDesc (subjectBucket si subj.name)).filter
          fun x => x.1 == sid).map Prod.snd := by
  unfold subjectLine
  rw [List.map_map]
  exact enumFrom_filter_map_snd (fun x : String × ℤ => x.1 == sid)
    Prod.snd 0 _

/-- With distinct student keys, a subject bucket filtered to one student
is that student's own entries for the subject. -/
theorem subjectBucket_filter_eq (si : List (String × List SubjectScore))
    (n : String) {sid : String} {scs : List SubjectScore}
    (hkeys : (si.map Prod.fst).Nodup) (hmem : (sid, scs) ∈ si) :
    ((subjectBucket si n).filter fun x => x.1 == sid)
      = (scs.filter fun sc => sc.name == n).map fun sc => (sid, sc.score) := by
  unfold subjectBucket
  rw [filter_flatMap]
  calc (si.flatMap fun p =>
          ((p.2.filter fun sc => sc.name == n).map
            fun sc => (p.1, sc.score)).filter fun x => x.1 == sid)
      = si.flatMap fun p =>
          if p.1 = (sid, scs).1 then
            (p.2.filter fun sc => sc.name == n).map fun sc => (p.1, sc.score)
          else [] := by
        refine flatMap_congr_mem fun p _ => ?_
        by_cases hp : p.1 = sid
        · simp [List.filter_map, Function.comp_def, hp]
        · simp [List.filter_map, Function.comp_def, hp]
    _ = (scs.filter fun sc => sc.name == n).map fun sc => (sid, sc.score) :=
        flatMap_if_key_eq Prod.fst
          (fun p => (p.2.filter fun sc => sc.name == n).map
            fun sc => (p.1, sc.score)) si (sid, scs) hkeys hmem

/-- The scores in a student's output subject reports sum to the sum of the
student's own input scores, given validated input. -/
theorem subjectReportsFor_scores_sum (cs : List Subject)
    (si : List (String × List SubjectScore)) {sid : String}
    {scs : List SubjectScore} (hkeys : (si.map Prod.fst).Nodup)
    (hnames : (cs.map Subject.name).Nodup) (hmem : (sid, scs) ∈ si)
    (hvalid : ∀ sc ∈ scs, sc.name ∈ cs.map Subject.name) :
    ((subjectReportsFor cs si sid).map fun sr => sr.score).sum
      = studentTotal scs := by
  rw [subjectReportsFor_eq, List.map_flatMap, sum_flatMap_int]
  have hline : ∀ subj ∈ cs,
      (((subjectLine si subj sid).map fun sr => sr.score)).sum
        = ((scs.filter fun sc => sc.name == subj.name).map
            fun sc => sc.score).sum := by
    intro subj _
    rw [subjectLine_scores]
    have hperm : List.Perm
        ((sortByScoreDesc (subjectBucket si subj.name)).filter
          fun x => x.1 == sid)
        ((subjectBucket si subj.name).filter fun x => x.1 == sid) :=
      (List.perm_insertionSort _ _).filter _
    have hperm2 := hperm.map Prod.snd
    rw [subjectBucket_filter_eq si subj.name hkeys hmem,
      List.map_map] at hperm2
    exact hperm2.sum_eq
  rw [List.map_congr_left hline]
  have h1 : (cs.map fun subj =>
        ((scs.filter fun sc => sc.name == subj.name).map
          fun sc => sc.score).sum).sum
      = (((cs.map Subject.name).flatMap fun n =>
          scs.filter fun sc => sc.name == n).map fun sc => sc.score).sum := by
    rw [List.map_flatMap, sum_flatMap_int, List.map_map]
    rfl
  rw [h1]
  have hpart := flatMap_filter_key_perm SubjectScore.name
    (cs.map Subject.name) scs hnames hvalid
  exact (hpart.map fun sc => sc.score).sum_eq

/-! ## Validation bridge lemmas -/

/-- If the per-score validation loop of `AddStudentRecordToClass` passes,
every reported score has a non-empty name, is non-negative, references an
existing class subject and respects that subject's max score. -/
theorem checkRecordScores_none_valid (cs : List Subject) :
    ∀ scores : List SubjectScore, checkRecordScores cs scores = none →
      ∀ sc ∈ scores, sc.name ≠ "" ∧ 0 ≤ sc.score
        ∧ ∃ subj, lookupSubject cs sc.name = some subj
            ∧ sc.score ≤ subj.maxScore
  | [], _, sc, hmem => absurd hmem (List.not_mem_nil sc)
  | sc₀ :: scores, h, sc, hmem => by
    unfold checkRecordScores at h
    split at h
    · simp at h
    · rename_i h1
      split at h
      · simp at h
      · rename_i h2
        split at h
        · simp at h
        · rename_i subj hl
          split at h
          · simp at h
          · rename_i h3
            rcases List.mem_cons.mp hmem with rfl | hm
            · exact ⟨h1, not_lt.mp h2, subj, hl, not_lt.mp h3⟩
            · exact checkRecordScores_none_valid cs scores h sc hm

/-! ## Claim theorems -/

/-- C1: for every validated snapshot, the class positions assigned by
`computeClassReport` to the N students form a permutation of `1..N` (each
of the N input students receiving exactly one), and within each subject
the subject positions among the M students who reported that subject form
a permutation of `1..M`; tied scores still receive distinct consecutive
positions — there is no position sharing. -/
theorem positions_form_permutations (cs : List Subject)
    (si : List (String × List SubjectScore))
    (hkeys : (si.map Prod.fst).Nodup)
    (hnames : (cs.map Subject.name).Nodup)
    (_hvalid : ∀ p ∈ si, ∀ sc ∈ p.2, sc.name ∈ cs.map Subject.name)
    (honce : ∀ p ∈ si, (p.2.map SubjectScore.name).Nodup) :
    List.Perm (classPositions (computeClassReport cs si))
        (List.range' 1 si.length)
    ∧ List.Perm ((computeClassReport cs si).studentReports.map Prod.fst)
        (si.map Prod.fst)
    ∧ ∀ subj ∈ cs,
        List.Perm (subjectPositions (computeClassReport cs si) subj.name)
          (List.range' 1 (studentsReporting si subj.name)) := by
  refine ⟨?_, studentReports_keys_perm cs si, ?_⟩
  · rw [classPositions, studentReports_positions_eq]
  · intro subj hsubj
    have h := subjectPositions_perm cs si hkeys hnames hsubj
    rwa [subjectBucket_length_eq si subj.name honce] at h

/-- Witness for C1 at a concrete two-student, two-subject snapshot. -/
theorem positions_form_permutations_witness :
    List.Perm (classPositions (computeClassReport witSubjects witStudents))
        (List.range' 1 witStudents.length)
    ∧ List.Perm
        ((computeClassReport witSubjects witStudents).studentReports.map
          Prod.fst) (witStudents.map Prod.fst)
    ∧ ∀ subj ∈ witSubjects,
        List.Perm
          (subjectPositions (computeClassReport witSubjects witStudents)
            subj.name)
          (List.range' 1 (studentsReporting witStudents subj.name)) :=
  positions_form_permutations witSubjects witStudents (by decide) (by decide)
    (by decide) (by decide)

/-- C2: every output `totalScorePercentage` equals
`totalScore / totalMaxScore * 100` with the division performed in real
arithmetic (modelled exactly over `ℚ`), never integer-truncated; in
particular a student with `0 < totalScore < totalMaxScore` receives a
strictly positive percentage. -/
theorem totalScorePercentage_real_division (cs : List Subject)
    (si : List (String × List SubjectScore)) {p : String × StudentReportOut}
    (hp : p ∈ (computeClassReport cs si).studentReports)
    (hpos : 0 < p.2.classPart.totalScore)
    (hlt : p.2.classPart.totalScore < totalMaxScore cs) :
    p.2.classPart.totalScorePercentage
        = (p.2.classPart.totalScore : ℚ) / (totalMaxScore cs : ℚ) * 100
    ∧ 0 < p.2.classPart.totalScorePercentage := by
  obtain ⟨scs, _, ht, hpct, _, _⟩ := studentReports_entry_spec cs si hp
  have heq : p.2.classPart.totalScorePercentage
      = (p.2.classPart.totalScore : ℚ) / (totalMaxScore cs : ℚ) * 100 := by
    rw [hpct, ht]
  refine ⟨heq, ?_⟩
  rw [heq]
  have h1 : (0 : ℚ) < (p.2.classPart.totalScore : ℚ) := by exact_mod_cast hpos
  have h2 : (0 : ℚ) < (totalMaxScore cs : ℚ) := by
    exact_mod_cast lt_trans hpos hlt
  exact mul_pos (div_pos h1 h2) (by norm_num)

/-- Witness for C2: alice (second entry of the concrete output, total 90
of 150) receives a percentage equal to the exact formula and strictly
positive. -/
theorem totalScorePercentage_real_division_witness :
    ((computeClassReport witSubjects witStudents).studentReports.get
          ⟨1, by decide⟩).2.classPart.totalScorePercentage
        = (((computeClassReport witSubjects witStudents).studentReports.get
            ⟨1, by decide⟩).2.classPart.totalScore : ℚ)
            / (totalMaxScore witSubjects : ℚ) * 100
    ∧ 0 < ((computeClassReport witSubjects witStudents).studentReports.get
          ⟨1, by decide⟩).2.classPart.totalScorePercentage :=
  @totalScorePercentage_real_division witSubjects witStudents _
    (List.get_mem _ 1 _) (by decide) (by decide)

/-- C3: the Go grading switch maps every percentage to exactly one band,
and coincides with the specification's descending ladder
(`p > 69` Excellent, `59 < p ≤ 69` Good, `49 < p ≤ 59` Fair,
`40 < p ≤ 49` Pass — the two historical Pass bands collapsed — `p ≤ 40`
Fail); the engine applies this same function to subject and total
percentages alike. -/
theorem gradeTotalScorePercentage_matches_spec_ladder :
    ∀ p : ℚ, gradeTotalScorePercentage p = claimGradingBand p := by
  intro p
  unfold gradeTotalScorePercentage claimGradingBand
  by_cases h69 : p > 69
  · rw [if_pos h69, if_pos h69]
  · rw [if_neg h69, if_neg h69]
    by_cases h59 : p > 59
    · have hc : 59 < p ∧ p ≤ 69 := ⟨h59, not_lt.mp h69⟩
      rw [if_pos h59, if_pos hc]
    · have hc : ¬(59 < p ∧ p ≤ 69) := fun hx => h59 hx.1
      rw [if_neg h59, if_neg hc]
      by_cases h49 : p > 49
      · have hc2 : 49 < p ∧ p ≤ 59 := ⟨h49, not_lt.mp h59⟩
        rw [if_pos h49, if_pos hc2]
      · have hc2 : ¬(49 < p ∧ p ≤ 59) := fun hx => h49 hx.1
        rw [if_neg h49, if_neg hc2]
        by_cases h44 : p > 44
        · have hc3 : 40 < p ∧ p ≤ 49 := ⟨lt_trans (by norm_num) h44, not_lt.mp h49⟩
          rw [if_pos h44, if_pos hc3]
        · rw [if_neg h44]
          by_cases h40 : p > 40
          · have hc3 : 40 < p ∧ p ≤ 49 := ⟨h40, not_lt.mp h49⟩
            rw [if_pos h40, if_pos hc3]
          · have hc3 : ¬(40 < p ∧ p ≤ 49) := fun hx => h40 hx.1
            rw [if_neg h40, if_neg hc3]

/-- C4: with an empty subject set (`totalMaxScore = 0`) the engine does
NOT refuse: `computeClassReport` has no guard and still produces and hands
over a complete report for both students.  (In Go the percentages are
computed by dividing by zero, yielding Inf/NaN; the engine signals no
precondition failure.) -/
theorem engine_has_no_empty_subject_guard :
    (computeClassReport [] [("a", []), ("b", [])]).classReport.totalStudents
        = 2
    ∧ (computeClassReport [] [("a", []), ("b", [])]).studentReports.length
        = 2
    ∧ totalMaxScore [] = 0 := by decide

/-- C7: for every validated snapshot and every student in the output, the
sum of the scores in the student's `subjectReports` equals the student's
`totalScore`. -/
theorem subject_scores_sum_to_total (cs : List Subject)
    (si : List (String × List SubjectScore))
    (hkeys : (si.map Prod.fst).Nodup)
    (hnames : (cs.map Subject.name).Nodup)
    (hvalid : ∀ p ∈ si, ∀ sc ∈ p.2, sc.name ∈ cs.map Subject.name)
    {p : String × StudentReportOut}
    (hp : p ∈ (computeClassReport cs si).studentReports) :
    ((p.2.subjects.map fun sr => sr.score).sum : ℤ)
      = p.2.classPart.totalScore := by
  obtain ⟨scs, hmem, ht, _, _, hsub⟩ := studentReports_entry_spec cs si hp
  rw [hsub, ht]
  exact subjectReportsFor_scores_sum cs si hkeys hnames hmem
    fun sc hsc => hvalid _ hmem sc hsc

/-- Witness for C7: alice's subject scores 40 + 50 sum to her total 90. -/
theorem subject_scores_sum_to_total_witness :
    ((((computeClassReport witSubjects witStudents).studentReports.get
          ⟨1, by decide⟩).2.subjects.map fun sr => sr.score).sum : ℤ)
      = ((computeClassReport witSubjects witStudents).studentReports.get
          ⟨1, by decide⟩).2.classPart.totalScore :=
  @subject_scores_sum_to_total witSubjects witStudents (by decide)
    (by decide) (by decide) _ (List.get_mem _ 1 _)

/-- C5 counterexample: the same unordered snapshot (two tied students),
presented in the two iteration orders a Go map may produce, yields
different outputs — alice's class position is 1 in one run and 2 in the
other. -/
theorem tied_positions_depend_on_iteration_order :
    List.Perm tieSnapshotAB tieSnapshotBA
    ∧ (((computeClassReport tieSubjects tieSnapshotAB).studentReports.lookup
          "alice").map fun r => r.classPart.position) = some 1
    ∧ (((computeClassReport tieSubjects tieSnapshotBA).studentReports.lookup
          "alice").map fun r => r.classPart.position) = some 2 :=
  ⟨by decide, by decide, by decide⟩

/-- C5 (amended): `computeClassReport` is a pure function of the ordered
snapshot, and every student's `totalScore` and `totalScorePercentage` are
determined by that student's own score list alone — hence identical across
any two runs whose snapshots are permutations of each other; only
positions among tied students (and the subject-report order) follow the
iteration order. -/
theorem totals_independent_of_iteration_order (cs : List Subject)
    (si₁ si₂ : List (String × List SubjectScore))
    (hperm : List.Perm si₁ si₂) (hkeys : (si₁.map Prod.fst).Nodup)
    {p₁ p₂ : String × StudentReportOut}
    (h₁ : p₁ ∈ (computeClassReport cs si₁).studentReports)
    (h₂ : p₂ ∈ (computeClassReport cs si₂).studentReports)
    (hsid : p₁.1 = p₂.1) :
    p₁.2.classPart.totalScore = p₂.2.classPart.totalScore
    ∧ p₁.2.classPart.totalScorePercentage
        = p₂.2.classPart.totalScorePercentage := by
  obtain ⟨scs₁, hm₁, ht₁, hq₁, _, _⟩ := studentReports_entry_spec cs si₁ h₁
  obtain ⟨scs₂, hm₂, ht₂, hq₂, _, _⟩ := studentReports_entry_spec cs si₂ h₂
  have hm₂' : (p₁.1, scs₂) ∈ si₁ := by
    rw [hsid]
    exact hperm.mem_iff.mpr hm₂
  have heq : scs₁ = scs₂ := value_eq_of_nodup_keys hkeys hm₁ hm₂'
  constructor
  · rw [ht₁, ht₂, heq]
  · rw [hq₁, hq₂, heq]

/-- Witness for the amended C5: alice's total and percentage agree between
the two iteration orders of the concrete snapshot. -/
theorem totals_independent_of_iteration_order_witness :
    ((computeClassReport witSubjects witStudents).studentReports.get
          ⟨1, by decide⟩).2.classPart.totalScore
      = ((computeClassReport witSubjects witStudentsRev).studentReports.get
          ⟨1, by decide⟩).2.classPart.totalScore
    ∧ ((computeClassReport witSubjects witStudents).studentReports.get
          ⟨1, by decide⟩).2.classPart.totalScorePercentage
      = ((computeClassReport witSubjects witStudentsRev).studentReports.get
          ⟨1, by decide⟩).2.classPart.totalScorePercentage :=
  @totals_independent_of_iteration_order witSubjects witStudents
    witStudentsRev (by decide) (by decide) _ _ (List.get_mem _ 1 _)
    (List.get_mem _ 1 _) (by decide)

/-- C6: with at least two students and non-negative scores,
`highestStudentScore` is the maximum total score, `lowestStudentScore` is
the minimum total score (a genuine 0 included), and both percentages are
derived from those values by the same total-over-totalMaxScore formula. -/
theorem class_extremes_are_max_min (cs : List Subject)
    (si : List (String × List SubjectScore)) (h2 : 2 ≤ si.length)
    (hnn : ∀ p ∈ si, ∀ sc ∈ p.2, 0 ≤ sc.score) :
    ((computeClassReport cs si).classReport.highestStudentScore
        ∈ si.map fun p => studentTotal p.2)
    ∧ (∀ t ∈ si.map fun p => studentTotal p.2,
        t ≤ (computeClassReport cs si).classReport.highestStudentScore)
    ∧ ((computeClassReport cs si).classReport.lowestStudentScore
        ∈ si.map fun p => studentTotal p.2)
    ∧ (∀ t ∈ si.map fun p => studentTotal p.2,
        (computeClassReport cs si).classReport.lowestStudentScore ≤ t)
    ∧ (computeClassReport cs si).classReport.highestStudentScoreAsPercentage
        = ((computeClassReport cs si).classReport.highestStudentScore : ℚ)
            / (totalMaxScore cs : ℚ) * 100
    ∧ (computeClassReport cs si).classReport.lowestStudentScoreAsPercentage
        = ((computeClassReport cs si).classReport.lowestStudentScore : ℚ)
            / (totalMaxScore cs : ℚ) * 100 := by
  have hlen : (sortByScoreDesc (studentTotals si)).length = si.length := by
    simp only [sortByScoreDesc, List.length_insertionSort, studentTotals,
      List.length_map]
  have hsorted := sortByScoreDesc_pairwise (studentTotals si)
  have hpermT : List.Perm ((sortByScoreDesc (studentTotals si)).map Prod.snd)
      (si.map fun p => studentTotal p.2) := by
    have h := (List.perm_insertionSort
      (fun a b : String × ℤ => b.2 ≤ a.2) (studentTotals si)).map Prod.snd
    have heq : (studentTotals si).map Prod.snd
        = si.map fun p => studentTotal p.2 := by
      unfold studentTotals
      rw [List.map_map]
      rfl
    exact heq ▸ h
  rcases hs : sortByScoreDesc (studentTotals si) with _ | ⟨x, rest⟩
  · rw [hs] at hlen
    rw [← hlen] at h2
    exact absurd h2 (by simp)
  rcases rest with _ | ⟨y, l⟩
  · rw [hs] at hlen
    rw [← hlen] at h2
    exact absurd h2 (by simp)
  rw [hs] at hsorted hpermT
  have hx2nn : 0 ≤ x.2 := by
    have hx2mem : x.2 ∈ si.map fun p => studentTotal p.2 :=
      hpermT.mem_iff.mp (List.mem_cons_self _ _)
    obtain ⟨q, hq, hqe⟩ := List.mem_map.mp hx2mem
    rw [← hqe]
    show 0 ≤ (q.2.map fun sc => sc.score).sum
    refine sum_nonneg_int _ fun v hv => ?_
    obtain ⟨sc, hsc, rfl⟩ := List.mem_map.mp hv
    exact hnn q hq sc hsc
  have hext := classExtremes_cons_cons x y l hsorted hx2nn
  have hhi : (computeClassReport cs si).classReport.highestStudentScore
      = x.2 := by
    show (classExtremes (sortByScoreDesc (studentTotals si))).1 = x.2
    rw [hs, hext]
  have hlo : (computeClassReport cs si).classReport.lowestStudentScore
      = (l.map Prod.snd).getLastD y.2 := by
    show (classExtremes (sortByScoreDesc (studentTotals si))).2 = _
    rw [hs, hext]
  have hpw : (x.2 :: y.2 :: l.map Prod.snd).Pairwise (· ≥ ·) :=
    List.pairwise_map.mpr (hsorted.imp fun h => ge_iff_le.mpr h)
  refine ⟨?_, ?_, ?_, ?_, rfl, rfl⟩
  · rw [hhi]
    exact hpermT.mem_iff.mp (List.mem_cons_self _ _)
  · intro t ht
    rw [hhi]
    have ht' : t ∈ x.2 :: y.2 :: l.map Prod.snd := hpermT.mem_iff.mpr ht
    rcases List.mem_cons.mp ht' with rfl | hm
    · exact le_refl _
    · exact ge_iff_le.mp (List.rel_of_pairwise_cons hpw hm)
  · rw [hlo]
    have hmem := getLastD_cons_mem (l.map Prod.snd) y.2 (0 : ℤ)
    rw [List.getLastD_cons] at hmem
    exact hpermT.mem_iff.mp (List.mem_cons_of_mem _ hmem)
  · intro t ht
    rw [hlo]
    have hbound := getLastD_le_of_pairwise_ge (y.2 :: l.map Prod.snd) x.2 hpw
    rw [List.getLastD_cons, List.getLastD_cons] at hbound
    have ht' : t ∈ x.2 :: y.2 :: l.map Prod.snd := hpermT.mem_iff.mpr ht
    rcases List.mem_cons.mp ht' with rfl | hm
    · exact hbound.1
    · exact hbound.2 t hm

/-- Witness for C6 at the concrete snapshot (totals 90 and 120 of 150). -/
theorem class_extremes_are_max_min_witness :
    ((computeClassReport witSubjects witStudents).classReport.highestStudentScore
        ∈ witStudents.map fun p => studentTotal p.2)
    ∧ (∀ t ∈ witStudents.map fun p => studentTotal p.2,
        t ≤ (computeClassReport witSubjects
          witStudents).classReport.highestStudentScore)
    ∧ ((computeClassReport witSubjects
          witStudents).classReport.lowestStudentScore
        ∈ witStudents.map fun p => studentTotal p.2)
    ∧ (∀ t ∈ witStudents.map fun p => studentTotal p.2,
        (computeClassReport witSubjects
          witStudents).classReport.lowestStudentScore ≤ t)
    ∧ (computeClassReport witSubjects
          witStudents).classReport.highestStudentScoreAsPercentage
        = ((computeClassReport witSubjects
            witStudents).classReport.highestStudentScore : ℚ)
            / (totalMaxScore witSubjects : ℚ) * 100
    ∧ (computeClassReport witSubjects
          witStudents).classReport.lowestStudentScoreAsPercentage
        = ((computeClassReport witSubjects
            witStudents).classReport.lowestStudentScore : ℚ)
            / (totalMaxScore witSubjects : ℚ) * 100 :=
  class_extremes_are_max_min witSubjects witStudents (by decide) (by decide)

/-- C8: a class with fewer than 2 students is refused by the
report-generation gate with a descriptive invalid-request error; no
subjects-and-scores snapshot is produced, so the engine is never invoked
and no report is stored. -/
theorem report_gate_refuses_small_class (report : Option ClassReport)
    (subjects : List Subject)
    (records : List (String × List SubjectScore))
    (h : records.length < minStudentsForReport) :
    (∃ msg, classInfoForReport report subjects records
        = ReportGateResult.invalidRequest msg)
    ∧ ∀ s r, classInfoForReport report subjects records
        ≠ ReportGateResult.ok s r := by
  have hgate : ∃ msg, classInfoForReport report subjects records
      = ReportGateResult.invalidRequest msg := by
    cases report with
    | some _ => exact ⟨_, rfl⟩
    | none =>
      exact ⟨"a minimum of 2 students is required to generate a report for this class",
        by simp [classInfoForReport, h]⟩
  obtain ⟨msg, hmsg⟩ := hgate
  refine ⟨⟨msg, hmsg⟩, fun s r hc => ?_⟩
  rw [hmsg] at hc
  exact ReportGateResult.noConfusion hc

/-- Witness for C8: a one-student class is refused. -/
theorem report_gate_refuses_small_class_witness :
    ∃ msg, classInfoForReport none [] [("a", [])]
        = ReportGateResult.invalidRequest msg :=
  (report_gate_refuses_small_class none [] [("a", [])] (by decide)).1

/-- C9: adding a student record is rejected with an invalid-request error
whenever any reported score is negative, references a subject name absent
from the class's subject set, or exceeds the matching subject's max score;
conversely a record is stored only if every score passes all these
checks. -/
theorem addStudentRecord_validates_scores (classID studentName : String)
    (classSubjects : List Subject) (existing : List String)
    (reportExists : Bool) (scores : List SubjectScore) :
    ((∃ sc ∈ scores, sc.score < 0
        ∨ lookupSubject classSubjects sc.name = none
        ∨ ∃ subj, lookupSubject classSubjects sc.name = some subj
            ∧ subj.maxScore < sc.score) →
      ∃ msg, addStudentRecordToClass classID classSubjects existing
          reportExists studentName scores
        = RepoResult.invalidRequest msg)
    ∧ ∀ v, addStudentRecordToClass classID classSubjects existing
          reportExists studentName scores = RepoResult.stored v →
        ∀ sc ∈ scores, 0 ≤ sc.score
          ∧ ∃ subj, lookupSubject classSubjects sc.name = some subj
              ∧ sc.score ≤ subj.maxScore := by
  have hstored : ∀ v, addStudentRecordToClass classID classSubjects existing
      reportExists studentName scores = RepoResult.stored v →
      ∀ sc ∈ scores, 0 ≤ sc.score
        ∧ ∃ subj, lookupSubject classSubjects sc.name = some subj
            ∧ sc.score ≤ subj.maxScore := by
    intro v hv sc hsc
    unfold addStudentRecordToClass at hv
    split at hv
    · exact absurd hv (by simp)
    split at hv
    · exact absurd hv (by simp)
    split at hv
    · exact absurd hv (by simp)
    split at hv
    · exact absurd hv (by simp)
    split at hv
    · exact absurd hv (by simp)
    · rename_i heq
      obtain ⟨_, hnn, subj, hl, hle⟩ :=
        checkRecordScores_none_valid classSubjects scores heq sc hsc
      exact ⟨hnn, subj, hl, hle⟩
  refine ⟨?_, hstored⟩
  rintro ⟨sc, hsc, hbad⟩
  rcases hres : addStudentRecordToClass classID classSubjects existing
      reportExists studentName scores with msg | v
  · exact ⟨msg, rfl⟩
  · exfalso
    obtain ⟨hnn, subj, hl, hle⟩ := hstored v hres sc hsc
    rcases hbad with hneg | hnone | ⟨subj', hsubj', hmax⟩
    · exact absurd hneg (not_lt.mpr hnn)
    · rw [hl] at hnone
      exact Option.noConfusion hnone
    · rw [hl] at hsubj'
      have heqs : subj = subj' := Option.some.inj hsubj'
      rw [← heqs] at hmax
      exact absurd hmax (not_lt.mpr hle)

/-- Witness for C9: a score of 150 against a max score of 100 is
rejected. -/
theorem addStudentRecord_validates_scores_witness :
    ∃ msg, addStudentRecordToClass "c1" [⟨"math", 100⟩] [] false "alice"
        [⟨"math", 150⟩] = RepoResult.invalidRequest msg :=
  (addStudentRecord_validates_scores "c1" "alice" [⟨"math", 100⟩] [] false
      [⟨"math", 150⟩]).1
    ⟨⟨"math", 150⟩, List.mem_cons_self _ _,
      Or.inr (Or.inr ⟨⟨"math", 100⟩, rfl, by decide⟩)⟩

/-- C10: both `ClassRepository.Create` and `StudentRepository.Create`
demand exactly `RequiredClassSubjects = 10` subject entries: any input
whose subject list has a different length is answered with an
invalid-request error and nothing is stored. -/
theorem create_requires_exactly_ten_subjects
    (className classID studentName : String) (subjects : List Subject)
    (subjectScores : List SubjectScore) :
    (subjects.length ≠ RequiredClassSubjects →
      ∃ msg, classCreate className subjects
        = RepoResult.invalidRequest msg)
    ∧ (subjectScores.length ≠ RequiredClassSubjects →
      ∃ msg, studentCreate classID studentName subjectScores
        = RepoResult.invalidRequest msg) := by
  have hclass : ∀ v, classCreate className subjects = RepoResult.stored v →
      subjects.length = RequiredClassSubjects := by
    intro v hv
    unfold classCreate at hv
    split at hv
    · exact absurd hv (by simp)
    split at hv
    · exact absurd hv (by simp)
    · rename_i hA hB
      exact not_ne_iff.mp hB
  have hstudent : ∀ v, studentCreate classID studentName subjectScores
      = RepoResult.stored v →
      subjectScores.length = RequiredClassSubjects := by
    intro v hv
    unfold studentCreate at hv
    split at hv
    · exact absurd hv (by simp)
    split at hv
    · exact absurd hv (by simp)
    · rename_i hA hB
      exact not_ne_iff.mp hB
  constructor
  · intro hlen
    rcases hres : classCreate className subjects with msg | v
    · exact ⟨msg, rfl⟩
    · exact absurd (hclass v hres) hlen
  · intro hlen
    rcases hres : studentCreate classID studentName subjectScores
        with msg | v
    · exact ⟨msg, rfl⟩
    · exact absurd (hstudent v hres) hlen

/-- Witness for C10: one-subject inputs are rejected by both Create
validations. -/
theorem create_requires_exactly_ten_subjects_witness :
    (∃ msg, classCreate "JSS1" [⟨"math", 100⟩]
        = RepoResult.invalidRequest msg)
    ∧ ∃ msg, studentCreate "c1" "alice" [⟨"math", 40⟩]
        = RepoResult.invalidRequest msg :=
  ⟨(create_requires_exactly_ten_subjects "JSS1" "c1" "alice"
      [⟨"math", 100⟩] [⟨"math", 40⟩]).1 (by decide),
   (create_requires_exactly_ten_subjects "JSS1" "c1" "alice"
      [⟨"math", 100⟩] [⟨"math", 40⟩]).2 (by decide)⟩

end Scomp
